import Mathlib

set_option maxHeartbeats 1000000

/-!
Verification of the ACPI PPTT (Processor Properties Topology Table) parser,
`drivers/acpi/pptt.c`.  The table is modelled as its declared header length
together with the raw byte contents of the mapped buffer; every structure
field access of the C code becomes an explicit little-endian byte read at
the structure offsets of `acpi_table_header` (36 bytes),
`acpi_subtable_header` (`u8 type` at +0, `u8 length` at +1),
`acpi_pptt_processor` (flags +4, parent +8, acpi_processor_id +12,
number_of_priv_resources +16, resource refs from +20) and
`acpi_pptt_cache` (flags +4, next_level_of_cache +8, size +12,
number_of_sets +16, associativity +20, attributes +21, line_size +22).
Unbounded C loops are given an explicit fuel parameter; `none` means the
loop was still running when the fuel ran out, so `∀ fuel, f fuel = none`
states that the C loop diverges on that input.
-/

/-- A PPTT table: the declared header length (`table_hdr->length`, a `u32`)
and the raw bytes of the mapped buffer.  Reads mask to byte range. -/
structure Table where
  length : Nat
  byte : Nat → Nat

/-- One byte of the table, as the C `u8` read at offset `i`. -/
def readU8 (t : Table) (i : Nat) : Nat := t.byte i % 256

/-- Little-endian `u16` read at offset `i`. -/
def readU16 (t : Table) (i : Nat) : Nat := readU8 t i + 256 * readU8 t (i + 1)

/-- Little-endian `u32` read at offset `i`. -/
def readU32 (t : Table) (i : Nat) : Nat :=
  readU8 t i + 256 * readU8 t (i + 1) + 65536 * readU8 t (i + 2) +
    16777216 * readU8 t (i + 3)

/-- `fetch_pptt_subtable`: validate that a subtable reference lands inside
the table before returning it.  The first two guards are computed in
`size_t`, so they are exact; the third guard `pptt_ref + entry->length`
adds a `u8` to a `u32` in C, so it is reduced modulo `2^32`. -/
def fetch_pptt_subtable (t : Table) (pptt_ref : Nat) : Option Nat :=
  if pptt_ref < 2 then none
  else if pptt_ref + 2 > t.length then none
  else if (pptt_ref + readU8 t (pptt_ref + 1)) % 4294967296 > t.length then none
  else some pptt_ref

/-- `fetch_pptt_node` is `fetch_pptt_subtable` at the processor type. -/
def fetch_pptt_node (t : Table) (pptt_ref : Nat) : Option Nat :=
  fetch_pptt_subtable t pptt_ref

/-- `fetch_pptt_cache` is `fetch_pptt_subtable` at the cache type. -/
def fetch_pptt_cache (t : Table) (pptt_ref : Nat) : Option Nat :=
  fetch_pptt_subtable t pptt_ref

/-- A 4 GiB table exhibiting 32-bit wraparound in the third bounds check of
`fetch_pptt_subtable`: the record at offset 4294967290 declares length 200. -/
def bigT : Table :=
  ⟨4294967295, fun i => if i = 4294967291 then 200 else 0⟩

/-- C1 (amended): provided `offset + record.length` does not wrap around
32 bits, `fetch_pptt_subtable` returns `none` exactly when one of the three
stated bounds is violated; and unconditionally — wraparound corner
included — its result depends only on bytes strictly below
`table.length` (it never reads at or past the declared end). -/
theorem fetch_pptt_subtable_bounds (t : Table) (r : Nat) :
    (r + readU8 t (r + 1) < 4294967296 →
      (fetch_pptt_subtable t r = none ↔
        (r < 2 ∨ r + 2 > t.length ∨ r + readU8 t (r + 1) > t.length))) ∧
    (∀ t' : Table, t'.length = t.length →
      (∀ i, i < t.length → t'.byte i = t.byte i) →
      fetch_pptt_subtable t' r = fetch_pptt_subtable t r) := by
  constructor
  · intro hov
    simp only [fetch_pptt_subtable, Nat.mod_eq_of_lt hov]
    split_ifs with h1 h2 h3 <;> simp <;> omega
  · intro t' hlen hb
    by_cases h1 : r < 2
    · simp [fetch_pptt_subtable, h1]
    · by_cases h2 : r + 2 > t.length
      · simp [fetch_pptt_subtable, h1, h2, hlen]
      · have hb8 : readU8 t' (r + 1) = readU8 t (r + 1) := by
          unfold readU8
          rw [hb]
          omega
        simp [fetch_pptt_subtable, h1, h2, hlen, hb8]

/-- C1 counterexample: at offset 4294967290 of `bigT` the record's true end
(4294967490) lies past `table.length`, yet the wrapped 32-bit sum (194)
passes the check and the resolver returns the entry, so the unrestricted
"None iff a bound is violated" equivalence fails on the C code. -/
theorem fetch_pptt_subtable_wrap_cex :
    ¬ (fetch_pptt_subtable bigT 4294967290 = none ↔
      (4294967290 < 2 ∨ 4294967290 + 2 > bigT.length ∨
        4294967290 + readU8 bigT (4294967290 + 1) > bigT.length)) := by
  decide

/-- Witness for C1 at a concrete in-range offset of `bigT`. -/
theorem fetch_pptt_subtable_bounds_wit :
    36 + readU8 bigT (36 + 1) < 4294967296 ∧
    (fetch_pptt_subtable bigT 36 = none ↔
      (36 < 2 ∨ 36 + 2 > bigT.length ∨ 36 + readU8 bigT (36 + 1) > bigT.length)) :=
  ⟨by decide, (fetch_pptt_subtable_bounds bigT 36).1 (by decide)⟩

/-- `acpi_get_pptt_resource`: the `resource`-th private resource reference
of a processor node (a `u32` array starting 20 bytes into the node),
bounds-checked against `number_of_priv_resources` and resolved. -/
def acpi_get_pptt_resource (t : Table) (node resource : Nat) : Option Nat :=
  if resource ≥ readU32 t (node + 16) then none
  else fetch_pptt_subtable t (readU32 t (node + 20 + 4 * resource))

/-- Loop body of `acpi_pptt_walk_cache`: follow `next_level_of_cache`
links, incrementing the running level; when the level matches `level` and
the record's `ACPI_PPTT_CACHE_TYPE_VALID` flag (bit 4) is set and the
cache-type attribute bits (mask 0x0C) equal `type`, warn about a distinct
duplicate and record the match.  `warns` counts `pr_err` diagnostics.
`none` means the fuel ran out while the C loop was still running. -/
def walkCacheAux (t : Table) (level type : Nat) :
    Nat → Nat → Option Nat → Option Nat → Nat → Option (Nat × Option Nat × Nat)
  | _, local_level, none, found, warns => some (local_level, found, warns)
  | 0, _, some _, _, _ => none
  | fuel + 1, local_level, some cache, found, warns =>
    if local_level + 1 = level ∧ readU32 t (cache + 4) &&& 16 ≠ 0 ∧
        readU8 t (cache + 21) &&& 12 = type then
      walkCacheAux t level type fuel (local_level + 1)
        (fetch_pptt_cache t (readU32 t (cache + 8))) (some cache)
        (if found ≠ none ∧ found ≠ some cache then warns + 1 else warns)
    else
      walkCacheAux t level type fuel (local_level + 1)
        (fetch_pptt_cache t (readU32 t (cache + 8))) found warns

/-- `acpi_pptt_walk_cache`: returns depth 0 at once unless the resource is
a cache record (`type == ACPI_PPTT_TYPE_CACHE`, i.e. 1), else walks the
chain. -/
def acpi_pptt_walk_cache (t : Table) (fuel local_level res : Nat)
    (found : Option Nat) (warns level type : Nat) :
    Option (Nat × Option Nat × Nat) :=
  if readU8 t res ≠ 1 then some (0, found, warns)
  else walkCacheAux t level type fuel local_level (some res) found warns

/-- Resource loop of `acpi_find_cache_level`: iterate the private
resources, walking each cache chain from the unchanged `start` level,
accumulating the maximum depth, the match and the warning count.
`remaining` counts loop iterations still allowed; the top-level entry
point passes `number_of_priv_resources`, after which
`acpi_get_pptt_resource` returns `none` anyway. -/
def findCacheLevelAux (t : Table) (fuel node start level type : Nat) :
    Nat → Nat → Nat → Option Nat → Nat → Option (Nat × Option Nat × Nat)
  | 0, _, nol, ret, warns => some (nol, ret, warns)
  | remaining + 1, idx, nol, ret, warns =>
    match acpi_get_pptt_resource t node idx with
    | none => some (nol, ret, warns)
    | some res =>
      match acpi_pptt_walk_cache t fuel start res ret warns level type with
      | none => none
      | some (l, ret', warns') =>
        findCacheLevelAux t fuel node start level type remaining (idx + 1)
          (max nol l) ret' warns'

/-- `acpi_find_cache_level`: scan the node's resources; the returned first
component is the updated `*starting_level`, the second the matched cache
record, the third the number of duplicate-match diagnostics. -/
def acpi_find_cache_level (t : Table) (fuel node start level type : Nat) :
    Option (Nat × Option Nat × Nat) :=
  findCacheLevelAux t fuel node start level type (readU32 t (node + 16)) 0
    start none 0

/-- Depth observed by the cache walk of each resource of a node, in
resource order (the walk's running level is independent of the match
accumulator, so the depths are walked with an empty accumulator). -/
def cacheDepthsAux (t : Table) (fuel node start level type : Nat) :
    Nat → Nat → Option (List Nat)
  | 0, _ => some []
  | remaining + 1, idx =>
    match acpi_get_pptt_resource t node idx with
    | none => some []
    | some res =>
      match acpi_pptt_walk_cache t fuel start res none 0 level type with
      | none => none
      | some (l, _, _) =>
        (cacheDepthsAux t fuel node start level type remaining (idx + 1)).map
          (fun ds => l :: ds)

/-- The list of per-resource cache depths seen by `acpi_find_cache_level`. -/
def cacheDepths (t : Table) (fuel node start level type : Nat) :
    Option (List Nat) :=
  cacheDepthsAux t fuel node start level type (readU32 t (node + 16)) 0

/-- Ancestor loop of `acpi_process_node`: run `acpi_find_cache_level` with
level 0 and type 0 at each node of the parent chain, threading the level
counter; `none` when the fuel runs out (the C loop has no cycle bound). -/
def processNodeAux (t : Table) (wfuel : Nat) : Nat → Nat → Nat → Option Nat
  | 0, _, _ => none
  | fuel + 1, node, total =>
    match acpi_find_cache_level t wfuel node total 0 0 with
    | none => none
    | some (total', _, _) =>
      match fetch_pptt_node t (readU32 t (node + 8)) with
      | none => some total'
      | some p => processNodeAux t wfuel fuel p total'

/-- `acpi_process_node`: total cache levels visible from a processor node,
accumulated up the parent chain starting from 0. -/
def acpi_process_node (t : Table) (wfuel fuel node : Nat) : Option Nat :=
  processNodeAux t wfuel fuel node 0

/-- Scan loop of `acpi_pptt_leaf_node`: starting after the 36-byte table
header, visit each subtable while `entry + 2 < table_end`, returning
`false` as soon as a processor entry (`type == 0`) has `parent` equal to
`nodeOff`, and advancing by the entry's length byte.  The C loop has no
zero-length guard, so fuel exhaustion (`none`) models its divergence. -/
def leafAux (t : Table) (nodeOff : Nat) : Nat → Nat → Option Bool
  | fuel, off =>
    if off + 2 < t.length then
      match fuel with
      | 0 => none
      | fuel + 1 =>
        if readU8 t off = 0 ∧ readU32 t (off + 8) = nodeOff then some false
        else leafAux t nodeOff fuel (off + readU8 t (off + 1))
    else some true

/-- `acpi_pptt_leaf_node`: whether no entry of the table references
`nodeOff` as its parent. -/
def acpi_pptt_leaf_node (t : Table) (nodeOff fuel : Nat) : Option Bool :=
  leafAux t nodeOff fuel 36

/-- The offsets of the subtable entries visited by the linear scans,
computed with the same step rule and stopping condition. -/
def scanAux (t : Table) : Nat → Nat → Option (List Nat)
  | fuel, off =>
    if off + 2 < t.length then
      match fuel with
      | 0 => none
      | fuel + 1 =>
        (scanAux t fuel (off + readU8 t (off + 1))).map (fun es => off :: es)
    else some []

/-- Scan loop of `acpi_find_processor_node`: visit each subtable, abort
with not-found on a zero-length entry, and return the first processor
entry whose `acpi_processor_id` matches and which is a leaf node.
`lfuel` is the fuel handed to each inner `acpi_pptt_leaf_node` scan;
`some none` is the C `return NULL`. -/
def findProcAux (t : Table) (id lfuel : Nat) : Nat → Nat → Option (Option Nat)
  | fuel, off =>
    if off + 2 < t.length then
      match fuel with
      | 0 => none
      | fuel + 1 =>
        if readU8 t (off + 1) = 0 then some none
        else if readU8 t off = 0 ∧ readU32 t (off + 12) = id then
          match acpi_pptt_leaf_node t off lfuel with
          | none => none
          | some true => some (some off)
          | some false => findProcAux t id lfuel fuel (off + readU8 t (off + 1))
        else findProcAux t id lfuel fuel (off + readU8 t (off + 1))
    else some none

/-- `acpi_find_processor_node`: locate the leaf processor entry carrying
the requested `acpi_processor_id`. -/
def acpi_find_processor_node (t : Table) (id lfuel fuel : Nat) :
    Option (Option Nat) :=
  findProcAux t id lfuel fuel 36

/-- A table whose only entry (at offset 36) has length byte 0: the
`acpi_pptt_leaf_node` scan never advances on it. -/
def zeroT : Table := ⟨40, fun _ => 0⟩

/-- A table whose cache record at offset 36 names itself as its next level
of cache, closing a cycle in the cache chain. -/
def cycT : Table :=
  ⟨60, fun i => if i = 36 then 1 else if i = 37 then 24 else
    if i = 44 then 36 else 0⟩

/-- A table whose single processor record (offset 36, length 20) names its
own offset as its parent, closing a cycle in the parent chain. -/
def selfT : Table :=
  ⟨56, fun i => if i = 37 then 20 else if i = 44 then 36 else 0⟩

/-- The destination `struct cacheinfo` fields that
`update_cache_properties` can touch.  `firmware_node` holds the offset of
the owning processor node; `attributes` is the kernel attribute bit set
(`CACHE_WRITE_THROUGH` 1, `CACHE_WRITE_BACK` 2, `CACHE_READ_ALLOCATE` 4,
`CACHE_WRITE_ALLOCATE` 8). -/
structure CacheInfo where
  firmware_node : Option Nat
  size : Nat
  coherency_line_size : Nat
  number_of_sets : Nat
  ways_of_associativity : Nat
  attributes : Nat

/-- The `if (flags & ACPI_PPTT_SIZE_PROPERTY_VALID)` update (flag bit 0). -/
def apply_size (t : Table) (c : Nat) (x : CacheInfo) : CacheInfo :=
  if readU32 t (c + 4) &&& 1 ≠ 0 then { x with size := readU32 t (c + 12) } else x

/-- The `if (flags & ACPI_PPTT_LINE_SIZE_VALID)` update (flag bit 6). -/
def apply_line (t : Table) (c : Nat) (x : CacheInfo) : CacheInfo :=
  if readU32 t (c + 4) &&& 64 ≠ 0 then
    { x with coherency_line_size := readU16 t (c + 22) } else x

/-- The `if (flags & ACPI_PPTT_NUMBER_OF_SETS_VALID)` update (flag bit 1). -/
def apply_sets (t : Table) (c : Nat) (x : CacheInfo) : CacheInfo :=
  if readU32 t (c + 4) &&& 2 ≠ 0 then
    { x with number_of_sets := readU32 t (c + 16) } else x

/-- The `if (flags & ACPI_PPTT_ASSOCIATIVITY_VALID)` update (flag bit 2). -/
def apply_assoc (t : Table) (c : Nat) (x : CacheInfo) : CacheInfo :=
  if readU32 t (c + 4) &&& 4 ≠ 0 then
    { x with ways_of_associativity := readU8 t (c + 20) } else x

/-- The `if (flags & ACPI_PPTT_WRITE_POLICY_VALID)` update (flag bit 5):
the attributes word is assigned `CACHE_WRITE_THROUGH` (1) when the
record's write-policy attribute bit (mask 0x10) says write-through, else
`CACHE_WRITE_BACK` (2). -/
def apply_policy (t : Table) (c : Nat) (x : CacheInfo) : CacheInfo :=
  if readU32 t (c + 4) &&& 32 ≠ 0 then
    { x with attributes := if readU8 t (c + 21) &&& 16 = 16 then 1 else 2 }
  else x

/-- The kernel attribute bits OR-ed in for the record's allocation-type
attribute (mask 0x03): read-allocate 4, write-allocate 8, both 12. -/
def allocEnc (attr : Nat) : Nat :=
  match attr &&& 3 with
  | 0 => 4
  | 1 => 8
  | _ => 12

/-- The `if (flags & ACPI_PPTT_ALLOCATION_TYPE_VALID)` update (flag bit 3). -/
def apply_alloc (t : Table) (c : Nat) (x : CacheInfo) : CacheInfo :=
  if readU32 t (c + 4) &&& 8 ≠ 0 then
    { x with attributes := x.attributes ||| allocEnc (readU8 t (c + 21)) }
  else x

/-- `update_cache_properties`: unconditionally record the owning node,
then apply each validity-flag-guarded field update in source order. -/
def update_cache_properties (this_leaf : CacheInfo) (t : Table)
    (found_cache cpu_node : Nat) : CacheInfo :=
  apply_alloc t found_cache (apply_policy t found_cache
    (apply_assoc t found_cache (apply_sets t found_cache
      (apply_line t found_cache (apply_size t found_cache
        { this_leaf with firmware_node := some cpu_node })))))

/-- `acpi_find_processor_package_id`: ascend the parent chain at most
`level` hops, stopping early when the node's flags contain `flag` or the
parent reference does not resolve; always returns the last node visited. -/
def acpi_find_processor_package_id (t : Table) :
    Option Nat → Nat → Nat → Option Nat
  | none, _, _ => none
  | some cpu, 0, _ => some cpu
  | some cpu, level + 1, flag =>
    if readU32 t (cpu + 4) &&& flag ≠ 0 then some cpu
    else
      match fetch_pptt_node t (readU32 t (cpu + 8)) with
      | none => some cpu
      | some p => acpi_find_processor_package_id t (some p) level flag

/-- The C conversion of a table offset (or a `u32` id) to a signed `int`. -/
def toInt32 (n : Nat) : Int :=
  if n % 4294967296 < 2147483648 then ((n % 4294967296 : Nat) : Int)
  else ((n % 4294967296 : Nat) : Int) - 4294967296

/-- `topology_get_acpi_cpu_tag`: resolve the leaf processor for the id,
walk towards the package, and return the node's `acpi_processor_id` at
level 0 or its table byte offset otherwise; `-ENOENT` (-2) when the
processor is not found.  The outer `none` is fuel exhaustion; the inner
branch returning `none` would be a NULL dereference in the C code and is
proved unreachable. -/
def topology_get_acpi_cpu_tag (t : Table) (id lfuel fuel level flag : Nat) :
    Option Int :=
  match acpi_find_processor_node t id lfuel fuel with
  | none => none
  | some none => some (-2)
  | some (some cpu_node) =>
    match acpi_find_processor_package_id t (some cpu_node) level flag with
    | none => none
    | some a =>
      some (if level = 0 then toInt32 (readU32 t (a + 12)) else toInt32 a)

/-- A well-formed test table: root processor A at 36 (id 11), leaf
processors B at 56 (id 1, two cache resources at 104 and 128, both
level-1 data caches with valid type) and C at 84 (id 2), both children of
A.  Declared length 152. -/
def T0pairs : List (Nat × Nat) :=
  [(37, 20), (48, 11), (57, 28), (64, 36), (68, 1), (72, 2), (76, 104),
   (80, 128), (85, 20), (92, 36), (96, 2), (104, 1), (105, 24), (108, 16),
   (128, 1), (129, 24), (132, 16)]

/-- The byte map of the test table `T0`. -/
def T0 : Table := ⟨152, fun i => (T0pairs.lookup i).getD 0⟩

/-- A cache record at 36 with every validity flag set (flags 127), size
77, sets 5, associativity 9, attributes 18 (write-through, read-write
allocate), line size 64. -/
def T7all : Table :=
  ⟨60, fun i => if i = 36 then 1 else if i = 37 then 24 else
    if i = 40 then 127 else if i = 48 then 77 else if i = 52 then 5 else
    if i = 56 then 9 else if i = 57 then 18 else if i = 58 then 64 else 0⟩

/-- A cache record at 36 whose only validity flag is write-policy
(flags 32) with write-through attributes (16). -/
def T7c : Table :=
  ⟨60, fun i => if i = 36 then 1 else if i = 37 then 24 else
    if i = 40 then 32 else if i = 57 then 16 else 0⟩

/-- A destination cache-info record whose attributes carry
`CACHE_READ_ALLOCATE` (4) before any update. -/
def leaf0 : CacheInfo := ⟨none, 10, 20, 30, 40, 4⟩

/-- C2 fails on the code: the leaf-node scan never advances past the
zero-length record of `zeroT`; the cache-chain walk loops forever around
the self-linked cache record of `cycT`; and the ancestor walk of
`acpi_process_node` loops forever on the self-parenting processor record
of `selfT`.  Fuel exhaustion for every fuel amount is the shallow
embedding of non-termination of the corresponding C loop. -/
theorem pptt_traversals_diverge :
    (∀ fuel, leafAux zeroT 500 fuel 36 = none) ∧
    (∀ fuel lv f w, walkCacheAux cycT 0 0 fuel lv (some 36) f w = none) ∧
    (∀ wf fuel tot, processNodeAux selfT wf fuel 36 tot = none) := by
  refine ⟨?_, ?_, ?_⟩
  · intro fuel
    induction fuel with
    | zero => decide
    | succ f ih =>
      rw [leafAux]
      have h1 : 36 + 2 < zeroT.length := by decide
      have h2 : ¬ (readU8 zeroT 36 = 0 ∧ readU32 zeroT (36 + 8) = 500) := by
        decide
      have h3 : readU8 zeroT (36 + 1) = 0 := by decide
      simp only [if_pos h1, if_neg h2, h3]
      exact ih
  · intro fuel
    induction fuel with
    | zero => intro lv f w; rfl
    | succ n ih =>
      intro lv f w
      rw [walkCacheAux]
      have hc : ¬ (lv + 1 = 0 ∧ readU32 cycT (36 + 4) &&& 16 ≠ 0 ∧
          readU8 cycT (36 + 21) &&& 12 = 0) := by
        intro h
        omega
      have hf : fetch_pptt_cache cycT (readU32 cycT (36 + 8)) = some 36 := by
        decide
      simp only [if_neg hc, hf]
      exact ih (lv + 1) f w
  · intro wf fuel
    have hfind : ∀ tot, acpi_find_cache_level selfT wf 36 tot 0 0 =
        some (tot, none, 0) := by
      intro tot
      have h0 : readU32 selfT (36 + 16) = 0 := by decide
      rw [acpi_find_cache_level, h0]
      rfl
    induction fuel with
    | zero => intro tot; rfl
    | succ n ih =>
      intro tot
      rw [processNodeAux, hfind]
      have hp : fetch_pptt_node selfT (readU32 selfT (36 + 8)) = some 36 := by
        decide
      simp only [hp]
      exact ih tot

/-- C3 (amended): when the cache walk meets a second record matching the
requested (level, type) while a distinct match is already recorded, the
query stays non-fatal: the duplicate diagnostic counter is incremented,
the newer record replaces the previous match, and the walk continues; a
walk that then terminates returns this accumulated (last-encountered)
match together with the diagnostic count. -/
theorem walk_cache_duplicate_last_wins (t : Table) (L T fuel lv c f w : Nat)
    (hmatch : lv + 1 = L ∧ readU32 t (c + 4) &&& 16 ≠ 0 ∧
      readU8 t (c + 21) &&& 12 = T)
    (hdup : f ≠ c) :
    walkCacheAux t L T (fuel + 1) lv (some c) (some f) w =
      walkCacheAux t L T fuel (lv + 1)
        (fetch_pptt_cache t (readU32 t (c + 8))) (some c) (w + 1) ∧
    walkCacheAux t L T fuel (lv + 1) none (some c) (w + 1) =
      some (lv + 1, some c, w + 1) := by
  constructor
  · rw [walkCacheAux, if_pos hmatch, if_pos]
    constructor
    · exact Option.some_ne_none f
    · intro h
      exact hdup (Option.some.inj h)
  · cases fuel <;> rfl

/-- C3 counterexample: in `T0`, processor 56 has two sibling level-1 data
cache chains at offsets 104 and 128; `acpi_find_cache_level` emits one
duplicate diagnostic but returns the second record (128), while the walk
of the first resource alone shows the first-encountered match was 104. -/
theorem walk_cache_duplicate_cex :
    acpi_find_cache_level T0 10 56 0 1 0 = some (1, some 128, 1) ∧
    acpi_pptt_walk_cache T0 10 0 104 none 0 1 0 = some (1, some 104, 0) := by
  decide

/-- Witness for C3 at the concrete duplicate in `T0`. -/
theorem walk_cache_duplicate_last_wins_wit :
    (0 + 1 = 1 ∧ readU32 T0 (104 + 4) &&& 16 ≠ 0 ∧
      readU8 T0 (104 + 21) &&& 12 = 0) ∧
    walkCacheAux T0 1 0 (3 + 1) 0 (some 104) (some 999) 0 =
      walkCacheAux T0 1 0 3 (0 + 1)
        (fetch_pptt_cache T0 (readU32 T0 (104 + 8))) (some 104) (0 + 1) :=
  ⟨by decide,
    (walk_cache_duplicate_last_wins T0 1 0 3 0 104 999 0 (by decide)
      (by decide)).1⟩

/-- The leaf-node scan agrees with the entry list produced by the same
stepping rule: it answers `true` exactly when no visited entry is a
processor record whose parent field names `nodeOff`. -/
theorem leafAux_scan (t : Table) (nodeOff : Nat) :
    ∀ fuel off es, scanAux t fuel off = some es →
      (leafAux t nodeOff fuel off = some true ↔
        ∀ e ∈ es, ¬ (readU8 t e = 0 ∧ readU32 t (e + 8) = nodeOff)) := by
  intro fuel
  induction fuel with
  | zero =>
    intro off es h
    rw [scanAux] at h
    rw [leafAux]
    by_cases hc : off + 2 < t.length
    · rw [if_pos hc] at h
      exact absurd h (by simp)
    · rw [if_neg hc] at h
      rw [if_neg hc]
      obtain rfl : ([] : List Nat) = es := by simpa using h
      simp
  | succ f ih =>
    intro off es h
    rw [scanAux] at h
    rw [leafAux]
    by_cases hc : off + 2 < t.length
    · rw [if_pos hc] at h
      rw [if_pos hc]
      obtain ⟨es', h', rfl⟩ := Option.map_eq_some'.mp h
      by_cases hbad : readU8 t off = 0 ∧ readU32 t (off + 8) = nodeOff
      · rw [if_pos hbad]
        simp only [List.mem_cons]
        constructor
        · intro hfalse
          exact absurd hfalse (by simp)
        · intro hall
          exact absurd hbad (hall off (Or.inl rfl))
      · rw [if_neg hbad]
        rw [ih _ _ h']
        simp only [List.mem_cons]
        constructor
        · intro hall e he
          rcases he with rfl | he
          · exact hbad
          · exact hall e he
        · intro hall e he
          exact hall e (Or.inr he)
    · rw [if_neg hc] at h
      rw [if_neg hc]
      obtain rfl : ([] : List Nat) = es := by simpa using h
      simp

/-- C5 (amended): whenever the linear scan of the table terminates with
entry list `es`, `acpi_pptt_leaf_node` answers `true` iff no processor
record in the table — including the queried record itself — carries
`parent` equal to the queried offset. -/
theorem leaf_node_iff_no_referencer (t : Table) (nodeOff fuel : Nat)
    (es : List Nat) (hscan : scanAux t fuel 36 = some es) :
    acpi_pptt_leaf_node t nodeOff fuel = some true ↔
      ∀ e ∈ es, ¬ (readU8 t e = 0 ∧ readU32 t (e + 8) = nodeOff) :=
  leafAux_scan t nodeOff fuel 36 es hscan

/-- C5 counterexample: in `selfT` the only processor record (offset 36)
names itself as parent; no *other* record references it, yet the code
reports it as not a leaf, refuting the claim as stated. -/
theorem leaf_node_self_parent_cex :
    scanAux selfT 10 36 = some [36] ∧
    ¬ (acpi_pptt_leaf_node selfT 36 10 = some true ↔
      ∀ e ∈ [36], e ≠ 36 →
        ¬ (readU8 selfT e = 0 ∧ readU32 selfT (e + 8) = 36)) := by
  decide

/-- Witness for C5 on the well-formed table `T0`. -/
theorem leaf_node_iff_no_referencer_wit :
    scanAux T0 20 36 = some [36, 56, 84, 104, 128] ∧
    (acpi_pptt_leaf_node T0 56 20 = some true ↔
      ∀ e ∈ [36, 56, 84, 104, 128],
        ¬ (readU8 T0 e = 0 ∧ readU32 T0 (e + 8) = 56)) :=
  ⟨by decide,
    leaf_node_iff_no_referencer T0 56 20 [36, 56, 84, 104, 128] (by decide)⟩

/-- The running level returned by the cache-chain walk does not depend on
the match accumulator or the warning counter. -/
theorem walkCacheAux_fst_indep (t : Table) (L T : Nat) :
    ∀ fuel lv c f w f' w',
      (walkCacheAux t L T fuel lv c f w).map (fun x => x.1) =
      (walkCacheAux t L T fuel lv c f' w').map (fun x => x.1) := by
  intro fuel
  induction fuel with
  | zero =>
    intro lv c f w f' w'
    cases c <;> rfl
  | succ n ih =>
    intro lv c f w f' w'
    cases c with
    | none => rfl
    | some cc =>
      simp only [walkCacheAux]
      by_cases hm : lv + 1 = L ∧ readU32 t (cc + 4) &&& 16 ≠ 0 ∧
          readU8 t (cc + 21) &&& 12 = T
      · rw [if_pos hm, if_pos hm]
        exact ih _ _ _ _ _ _
      · rw [if_neg hm, if_neg hm]
        exact ih _ _ _ _ _ _

/-- Same independence, at the `acpi_pptt_walk_cache` entry point. -/
theorem walk_fst_indep (t : Table) (fuel lv r : Nat) (f : Option Nat)
    (w L T : Nat) :
    (acpi_pptt_walk_cache t fuel lv r f w L T).map (fun x => x.1) =
    (acpi_pptt_walk_cache t fuel lv r none 0 L T).map (fun x => x.1) := by
  unfold acpi_pptt_walk_cache
  by_cases h : readU8 t r ≠ 1
  · rw [if_pos h, if_pos h]
    rfl
  · rw [if_neg h, if_neg h]
    exact walkCacheAux_fst_indep t L T fuel lv (some r) f w none 0

/-- The level returned by the resource loop is the max-fold of the
per-resource walk depths over the incoming level. -/
theorem findCacheLevelAux_depths (t : Table) (fuel node start L T : Nat) :
    ∀ rem idx nol ret warns res ds,
      findCacheLevelAux t fuel node start L T rem idx nol ret warns =
        some res →
      cacheDepthsAux t fuel node start L T rem idx = some ds →
      res.1 = ds.foldl max nol := by
  intro rem
  induction rem with
  | zero =>
    intro idx nol ret warns res ds h1 h2
    rw [findCacheLevelAux] at h1
    rw [cacheDepthsAux] at h2
    obtain rfl := Option.some.inj h1
    obtain rfl := Option.some.inj h2
    rfl
  | succ n ih =>
    intro idx nol ret warns res ds h1 h2
    rw [findCacheLevelAux] at h1
    rw [cacheDepthsAux] at h2
    cases hres : acpi_get_pptt_resource t node idx with
    | none =>
      simp only [hres] at h1 h2
      obtain rfl := Option.some.inj h1
      obtain rfl := Option.some.inj h2
      rfl
    | some r =>
      simp only [hres] at h1 h2
      have hind := walk_fst_indep t fuel start r ret warns L T
      cases hw1 : acpi_pptt_walk_cache t fuel start r ret warns L T with
      | none =>
        simp only [hw1] at h1
        exact absurd h1 (by simp)
      | some p =>
        obtain ⟨l, ret', warns'⟩ := p
        simp only [hw1] at h1
        cases hw2 : acpi_pptt_walk_cache t fuel start r none 0 L T with
        | none =>
          rw [hw1, hw2] at hind
          exact absurd hind (by simp)
        | some q =>
          obtain ⟨l2, r2, w2⟩ := q
          simp only [hw2] at h2
          have hl : l = l2 := by
            rw [hw1, hw2] at hind
            simpa using hind
          obtain ⟨ds', h2', rfl⟩ := Option.map_eq_some'.mp h2
          have hrec := ih (idx + 1) (max nol l) ret' warns' res ds' h1 h2'
          rw [List.foldl_cons, ← hl]
          exact hrec

/-- The resource loop never decreases the running level. -/
theorem findCacheLevelAux_mono (t : Table) (fuel node start L T : Nat) :
    ∀ rem idx nol ret warns res,
      findCacheLevelAux t fuel node start L T rem idx nol ret warns =
        some res →
      nol ≤ res.1 := by
  intro rem
  induction rem with
  | zero =>
    intro idx nol ret warns res h
    rw [findCacheLevelAux] at h
    obtain rfl := Option.some.inj h
    exact Nat.le_refl _
  | succ n ih =>
    intro idx nol ret warns res h
    rw [findCacheLevelAux] at h
    cases hres : acpi_get_pptt_resource t node idx with
    | none =>
      simp only [hres] at h
      obtain rfl := Option.some.inj h
      exact Nat.le_refl _
    | some r =>
      simp only [hres] at h
      cases hw : acpi_pptt_walk_cache t fuel start r ret warns L T with
      | none =>
        simp only [hw] at h
        exact absurd h (by simp)
      | some p =>
        obtain ⟨l, ret', warns'⟩ := p
        simp only [hw] at h
        exact Nat.le_trans (Nat.le_max_left nol l) (ih _ _ _ _ _ h)

/-- The accumulated total of `acpi_process_node` never decreases along the
ancestor chain. -/
theorem processNodeAux_mono (t : Table) (wf : Nat) :
    ∀ fuel node tot res, processNodeAux t wf fuel node tot = some res →
      tot ≤ res := by
  intro fuel
  induction fuel with
  | zero =>
    intro node tot res h
    exact absurd h (by simp [processNodeAux])
  | succ n ih =>
    intro node tot res h
    rw [processNodeAux] at h
    cases hf : acpi_find_cache_level t wf node tot 0 0 with
    | none =>
      simp only [hf] at h
      exact absurd h (by simp)
    | some p =>
      obtain ⟨tot', r', w'⟩ := p
      simp only [hf] at h
      have h1 : tot ≤ tot' :=
        findCacheLevelAux_mono t wf node tot 0 0 _ 0 tot none 0 (tot', r', w') hf
      cases hp : fetch_pptt_node t (readU32 t (node + 8)) with
      | none =>
        simp only [hp] at h
        obtain rfl := Option.some.inj h
        exact h1
      | some p2 =>
        simp only [hp] at h
        exact Nat.le_trans h1 (ih p2 tot' res h)

/-- C6: `acpi_find_cache_level` updates the running level to the maximum
of its previous value and the per-resource cache depths (hence it never
decreases), and the total accumulated by `acpi_process_node` is
monotonically non-decreasing as the ancestor chain is ascended. -/
theorem find_cache_level_max (t : Table) (fuel node start L T new : Nat)
    (r : Option Nat) (w : Nat) (ds : List Nat) (wf pf pnode acc res2 : Nat)
    (h1 : acpi_find_cache_level t fuel node start L T = some (new, r, w))
    (hd : cacheDepths t fuel node start L T = some ds)
    (h2 : processNodeAux t wf pf pnode acc = some res2) :
    new = ds.foldl max start ∧ start ≤ new ∧ acc ≤ res2 := by
  refine ⟨?_, ?_, processNodeAux_mono t wf pf pnode acc res2 h2⟩
  · exact findCacheLevelAux_depths t fuel node start L T
      (readU32 t (node + 16)) 0 start none 0 (new, r, w) ds h1 hd
  · exact findCacheLevelAux_mono t fuel node start L T
      (readU32 t (node + 16)) 0 start none 0 (new, r, w) h1

/-- Witness for C6 on `T0`. -/
theorem find_cache_level_max_wit :
    acpi_find_cache_level T0 10 56 0 1 0 = some (1, some 128, 1) ∧
    cacheDepths T0 10 56 0 1 0 = some [1, 1] ∧
    processNodeAux T0 10 5 56 0 = some 1 ∧
    (1 = [1, 1].foldl max 0 ∧ 0 ≤ 1 ∧ 0 ≤ 1) :=
  ⟨by decide, by decide, by decide,
    find_cache_level_max T0 10 56 0 1 0 1 (some 128) 1 [1, 1] 10 5 56 0 1
      (by decide) (by decide) (by decide)⟩

/-- C8: whenever the `acpi_find_processor_node` scan reaches an in-bounds
entry whose length byte is zero, it halts right there and returns
not-found, independently of the remaining fuel, the requested id, and the
rest of the table. -/
theorem find_processor_node_zero_length (t : Table) (id lfuel fuel off : Nat)
    (hin : off + 2 < t.length) (hzero : readU8 t (off + 1) = 0) :
    findProcAux t id lfuel (fuel + 1) off = some none := by
  rw [findProcAux, if_pos hin]
  simp [hzero]

/-- Witness for C8 at the zero-length record of `zeroT`. -/
theorem find_processor_node_zero_length_wit :
    (36 + 2 < zeroT.length ∧ readU8 zeroT (36 + 1) = 0) ∧
    findProcAux zeroT 7 5 (9 + 1) 36 = some none :=
  ⟨by decide,
    find_processor_node_zero_length zeroT 7 5 9 36 (by decide) (by decide)⟩

/-- Closed form of `update_cache_properties`: each property field is
written exactly when its validity flag is set; the attributes word is
first overwritten by the write-policy update (when flag bit 5 is set) and
then OR-extended by the allocation update (when flag bit 3 is set). -/
theorem update_cache_properties_eq (leaf : CacheInfo) (t : Table)
    (c node : Nat) :
    update_cache_properties leaf t c node =
      { firmware_node := some node,
        size := if readU32 t (c + 4) &&& 1 ≠ 0 then readU32 t (c + 12)
          else leaf.size,
        coherency_line_size := if readU32 t (c + 4) &&& 64 ≠ 0 then
          readU16 t (c + 22) else leaf.coherency_line_size,
        number_of_sets := if readU32 t (c + 4) &&& 2 ≠ 0 then
          readU32 t (c + 16) else leaf.number_of_sets,
        ways_of_associativity := if readU32 t (c + 4) &&& 4 ≠ 0 then
          readU8 t (c + 20) else leaf.ways_of_associativity,
        attributes :=
          if readU32 t (c + 4) &&& 8 ≠ 0 then
            (if readU32 t (c + 4) &&& 32 ≠ 0 then
              (if readU8 t (c + 21) &&& 16 = 16 then 1 else 2)
            else leaf.attributes) ||| allocEnc (readU8 t (c + 21))
          else
            (if readU32 t (c + 4) &&& 32 ≠ 0 then
              (if readU8 t (c + 21) &&& 16 = 16 then 1 else 2)
            else leaf.attributes) } := by
  unfold update_cache_properties apply_alloc apply_policy apply_assoc
    apply_sets apply_line apply_size
  split_ifs <;> rfl

/-- C7 (amended): size, line size, sets and associativity are carried
over exactly when their validity flag is set and keep their prior value
otherwise; with every flag set exactly the record's values are written.
The attributes word however is a shared destination: when only the
write-policy flag is set it is overwritten outright (clearing prior
allocation-policy bits even though their flag is unset), and the
allocation update ORs into whatever the policy update left. -/
theorem update_cache_properties_fields (leaf : CacheInfo) (t : Table)
    (c node : Nat) (u : CacheInfo) (fl av : Nat)
    (hu : u = update_cache_properties leaf t c node)
    (hf : fl = readU32 t (c + 4)) (hav : av = readU8 t (c + 21)) :
    (fl &&& 1 ≠ 0 ∧ fl &&& 2 ≠ 0 ∧ fl &&& 4 ≠ 0 ∧ fl &&& 8 ≠ 0 ∧
      fl &&& 32 ≠ 0 ∧ fl &&& 64 ≠ 0 →
      u = { firmware_node := some node, size := readU32 t (c + 12),
            coherency_line_size := readU16 t (c + 22),
            number_of_sets := readU32 t (c + 16),
            ways_of_associativity := readU8 t (c + 20),
            attributes := (if av &&& 16 = 16 then 1 else 2) |||
              allocEnc av }) ∧
    (fl &&& 1 = 0 → u.size = leaf.size) ∧
    (fl &&& 1 ≠ 0 → u.size = readU32 t (c + 12)) ∧
    (fl &&& 64 = 0 → u.coherency_line_size = leaf.coherency_line_size) ∧
    (fl &&& 64 ≠ 0 → u.coherency_line_size = readU16 t (c + 22)) ∧
    (fl &&& 2 = 0 → u.number_of_sets = leaf.number_of_sets) ∧
    (fl &&& 2 ≠ 0 → u.number_of_sets = readU32 t (c + 16)) ∧
    (fl &&& 4 = 0 → u.ways_of_associativity = leaf.ways_of_associativity) ∧
    (fl &&& 4 ≠ 0 → u.ways_of_associativity = readU8 t (c + 20)) ∧
    (fl &&& 32 = 0 ∧ fl &&& 8 = 0 → u.attributes = leaf.attributes) ∧
    (fl &&& 32 ≠ 0 ∧ fl &&& 8 = 0 →
      u.attributes = (if av &&& 16 = 16 then 1 else 2)) ∧
    (fl &&& 32 = 0 ∧ fl &&& 8 ≠ 0 →
      u.attributes = leaf.attributes ||| allocEnc av) ∧
    (fl &&& 32 ≠ 0 ∧ fl &&& 8 ≠ 0 →
      u.attributes = (if av &&& 16 = 16 then 1 else 2) ||| allocEnc av) := by
  subst hu hf hav
  rw [update_cache_properties_eq]
  refine ⟨?_, ?_, ?_, ?_, ?_, ?_, ?_, ?_, ?_, ?_, ?_, ?_, ?_⟩
  · rintro ⟨h1, h2, h3, h4, h5, h6⟩
    rw [if_pos h1, if_pos h6, if_pos h2, if_pos h3, if_pos h4, if_pos h5]
  · intro h
    rw [if_neg (show ¬ (readU32 t (c + 4) &&& 1 ≠ 0) from fun hn => hn h)]
  · intro h
    rw [if_pos h]
  · intro h
    rw [if_neg (show ¬ (readU32 t (c + 4) &&& 64 ≠ 0) from fun hn => hn h)]
  · intro h
    rw [if_pos h]
  · intro h
    rw [if_neg (show ¬ (readU32 t (c + 4) &&& 2 ≠ 0) from fun hn => hn h)]
  · intro h
    rw [if_pos h]
  · intro h
    rw [if_neg (show ¬ (readU32 t (c + 4) &&& 4 ≠ 0) from fun hn => hn h)]
  · intro h
    rw [if_pos h]
  · rintro ⟨h32, h8⟩
    rw [if_neg (show ¬ (readU32 t (c + 4) &&& 8 ≠ 0) from fun hn => hn h8),
      if_neg (show ¬ (readU32 t (c + 4) &&& 32 ≠ 0) from fun hn => hn h32)]
  · rintro ⟨h32, h8⟩
    rw [if_neg (show ¬ (readU32 t (c + 4) &&& 8 ≠ 0) from fun hn => hn h8),
      if_pos h32]
  · rintro ⟨h32, h8⟩
    rw [if_pos h8,
      if_neg (show ¬ (readU32 t (c + 4) &&& 32 ≠ 0) from fun hn => hn h32)]
  · rintro ⟨h32, h8⟩
    rw [if_pos h8, if_pos h32]

/-- C7 counterexample: in `T7c` only the write-policy flag is set
(allocation validity is unset), yet updating `leaf0` (whose attributes
carry the read-allocate bit) clears the allocation-policy bit, so the
unset-flag field does not keep its prior value. -/
theorem update_cache_properties_alloc_cex :
    readU32 T7c (36 + 4) &&& 8 = 0 ∧
    ¬ ((update_cache_properties leaf0 T7c 36 0).attributes.testBit 2 =
        leaf0.attributes.testBit 2) := by
  decide

/-- Witness for C7: the all-flags-set record of `T7all`. -/
theorem update_cache_properties_fields_wit :
    (readU32 T7all (36 + 4) &&& 1 ≠ 0 ∧ readU32 T7all (36 + 4) &&& 2 ≠ 0 ∧
      readU32 T7all (36 + 4) &&& 4 ≠ 0 ∧ readU32 T7all (36 + 4) &&& 8 ≠ 0 ∧
      readU32 T7all (36 + 4) &&& 32 ≠ 0 ∧
      readU32 T7all (36 + 4) &&& 64 ≠ 0) ∧
    update_cache_properties leaf0 T7all 36 3 =
      { firmware_node := some 3, size := readU32 T7all (36 + 12),
        coherency_line_size := readU16 T7all (36 + 22),
        number_of_sets := readU32 T7all (36 + 16),
        ways_of_associativity := readU8 T7all (36 + 20),
        attributes := (if readU8 T7all (36 + 21) &&& 16 = 16 then 1 else 2) |||
          allocEnc (readU8 T7all (36 + 21)) } :=
  ⟨by decide,
    (update_cache_properties_fields leaf0 T7all 36 3 _ _ _ rfl rfl rfl).1
      (by decide)⟩

/-- C9: `update_cache_properties` records the owning processor node in
`firmware_node` unconditionally, and when the record carries no validity
flags at all this is the only change made to the destination. -/
theorem update_cache_properties_firmware (leaf : CacheInfo) (t : Table)
    (c node : Nat) :
    (update_cache_properties leaf t c node).firmware_node = some node ∧
    (readU32 t (c + 4) = 0 →
      update_cache_properties leaf t c node =
        { leaf with firmware_node := some node }) := by
  simp only [update_cache_properties_eq]
  constructor
  · trivial
  · intro h
    simp [h]

/-- Witness for C9 on the flagless record of `zeroT`. -/
theorem update_cache_properties_firmware_wit :
    readU32 zeroT (36 + 4) = 0 ∧
    (update_cache_properties leaf0 zeroT 36 9).firmware_node = some 9 ∧
    update_cache_properties leaf0 zeroT 36 9 =
      { leaf0 with firmware_node := some 9 } :=
  ⟨by decide, (update_cache_properties_firmware leaf0 zeroT 36 9).1,
    (update_cache_properties_firmware leaf0 zeroT 36 9).2 (by decide)⟩

/-- A resolved subtable reference always lies strictly inside the table. -/
theorem fetch_pptt_subtable_lt (t : Table) (r p : Nat)
    (h : fetch_pptt_subtable t r = some p) : p + 2 ≤ t.length := by
  unfold fetch_pptt_subtable at h
  split_ifs at h with h1 h2 h3
  obtain rfl := Option.some.inj h
  omega

/-- A processor entry found by the scan lies strictly inside the table. -/
theorem findProcAux_lt (t : Table) (id lfuel : Nat) :
    ∀ fuel off n, findProcAux t id lfuel fuel off = some (some n) →
      n + 2 < t.length := by
  intro fuel
  induction fuel with
  | zero =>
    intro off n h
    rw [findProcAux] at h
    by_cases hc : off + 2 < t.length
    · rw [if_pos hc] at h
      exact absurd h (by simp)
    · rw [if_neg hc] at h
      exact absurd h (by simp)
  | succ f ih =>
    intro off n h
    rw [findProcAux] at h
    by_cases hc : off + 2 < t.length
    · rw [if_pos hc] at h
      by_cases hz : readU8 t (off + 1) = 0
      · rw [if_pos hz] at h
        exact absurd h (by simp)
      · rw [if_neg hz] at h
        by_cases hm : readU8 t off = 0 ∧ readU32 t (off + 12) = id
        · rw [if_pos hm] at h
          cases hl : acpi_pptt_leaf_node t off lfuel with
          | none =>
            simp only [hl] at h
            exact absurd h (by simp)
          | some b =>
            cases b with
            | true =>
              simp only [hl] at h
              obtain rfl : off = n := by simpa using h
              exact hc
            | false =>
              simp only [hl] at h
              exact ih _ _ h
        · rw [if_neg hm] at h
          exact ih _ _ h
    · rw [if_neg hc] at h
      exact absurd h (by simp)

/-- The package walk of a non-null node always yields a node. -/
theorem package_id_isSome (t : Table) (flag : Nat) :
    ∀ level cpu,
      (acpi_find_processor_package_id t (some cpu) level flag).isSome := by
  intro level
  induction level with
  | zero =>
    intro cpu
    rfl
  | succ l ih =>
    intro cpu
    rw [acpi_find_processor_package_id]
    by_cases hf : readU32 t (cpu + 4) &&& flag ≠ 0
    · rw [if_pos hf]
      rfl
    · rw [if_neg hf]
      cases hp : fetch_pptt_node t (readU32 t (cpu + 8)) with
      | none =>
        simp only [hp]
        rfl
      | some p =>
        simp only [hp]
        exact ih p

/-- The package walk stays strictly inside the table. -/
theorem package_id_lt (t : Table) (flag : Nat) :
    ∀ level cpu a, cpu < t.length →
      acpi_find_processor_package_id t (some cpu) level flag = some a →
      a < t.length := by
  intro level
  induction level with
  | zero =>
    intro cpu a hcpu h
    obtain rfl := Option.some.inj h
    exact hcpu
  | succ l ih =>
    intro cpu a hcpu h
    rw [acpi_find_processor_package_id] at h
    by_cases hf : readU32 t (cpu + 4) &&& flag ≠ 0
    · rw [if_pos hf] at h
      obtain rfl := Option.some.inj h
      exact hcpu
    · rw [if_neg hf] at h
      cases hp : fetch_pptt_node t (readU32 t (cpu + 8)) with
      | none =>
        simp only [hp] at h
        obtain rfl := Option.some.inj h
        exact hcpu
      | some p =>
        simp only [hp] at h
        have hple : p + 2 ≤ t.length := fetch_pptt_subtable_lt t _ p hp
        exact ih p a (by omega) h

/-- Below `2^31` the C `int` conversion is the identity. -/
theorem toInt32_small (m : Nat) (hm : m < 2147483648) :
    toInt32 m = Int.ofNat m := by
  unfold toInt32
  rw [Nat.mod_eq_of_lt (by omega)]
  rw [if_pos hm]
  rfl

/-- C10: `acpi_find_processor_package_id` maps a non-null node to a
non-null node — in particular it returns the input when the level is 0,
when the node's flags contain the stop flag, or when the parent link does
not resolve — and therefore `topology_get_acpi_cpu_tag` never
dereferences a null node once the leaf lookup has succeeded. -/
theorem package_id_total (t : Table) (cpu level flag id lf f n : Nat)
    (hfind : acpi_find_processor_node t id lf f = some (some n)) :
    (acpi_find_processor_package_id t (some cpu) level flag).isSome ∧
    (level = 0 →
      acpi_find_processor_package_id t (some cpu) level flag = some cpu) ∧
    (readU32 t (cpu + 4) &&& flag ≠ 0 →
      acpi_find_processor_package_id t (some cpu) level flag = some cpu) ∧
    (fetch_pptt_node t (readU32 t (cpu + 8)) = none →
      acpi_find_processor_package_id t (some cpu) level flag = some cpu) ∧
    topology_get_acpi_cpu_tag t id lf f level flag ≠ none := by
  refine ⟨package_id_isSome t flag level cpu, ?_, ?_, ?_, ?_⟩
  · rintro rfl
    rfl
  · intro hf
    cases level with
    | zero => rfl
    | succ l => rw [acpi_find_processor_package_id, if_pos hf]
  · intro hp
    cases level with
    | zero => rfl
    | succ l =>
      rw [acpi_find_processor_package_id]
      by_cases hf : readU32 t (cpu + 4) &&& flag ≠ 0
      · rw [if_pos hf]
      · rw [if_neg hf]
        simp only [hp]
  · unfold topology_get_acpi_cpu_tag
    simp only [hfind]
    have hs := package_id_isSome t flag level n
    cases hpk : acpi_find_processor_package_id t (some n) level flag with
    | none =>
      rw [hpk] at hs
      exact absurd hs (by simp)
    | some a =>
      simp only [hpk]
      simp

/-- Witness for C10 on `T0`. -/
theorem package_id_total_wit :
    acpi_find_processor_node T0 1 10 10 = some (some 56) ∧
    acpi_find_processor_package_id T0 (some 36) 0 0 = some 36 ∧
    topology_get_acpi_cpu_tag T0 1 10 10 0 0 ≠ none :=
  ⟨by decide,
    (package_id_total T0 36 0 0 1 10 10 56 (by decide)).2.1 rfl,
    (package_id_total T0 36 0 0 1 10 10 56 (by decide)).2.2.2.2⟩

/-- C4: once the leaf processor is found, the topology tag at level 0 is
that leaf's `acpi_processor_id`; at any non-zero level it is the table
byte offset of the ancestor node reached by the package walk, so two CPUs
whose walks reach the same ancestor receive the identical tag.  The table
is assumed to fit a signed 32-bit `int` (length at most `2^31`), matching
the C return type. -/
theorem topology_tag_values (t : Table) (id1 id2 lf f level flag : Nat)
    (n1 n2 a1 a2 : Nat) (hlen : t.length ≤ 2147483648)
    (h1 : acpi_find_processor_node t id1 lf f = some (some n1))
    (h2 : acpi_find_processor_node t id2 lf f = some (some n2))
    (ha1 : acpi_find_processor_package_id t (some n1) level flag = some a1)
    (ha2 : acpi_find_processor_package_id t (some n2) level flag = some a2)
    (hpid : readU32 t (a1 + 12) < 2147483648) :
    (level = 0 → topology_get_acpi_cpu_tag t id1 lf f level flag =
      some (Int.ofNat (readU32 t (n1 + 12)))) ∧
    (level ≠ 0 → topology_get_acpi_cpu_tag t id1 lf f level flag =
      some (Int.ofNat a1)) ∧
    (level ≠ 0 → a1 = a2 →
      topology_get_acpi_cpu_tag t id1 lf f level flag =
        topology_get_acpi_cpu_tag t id2 lf f level flag) := by
  have hn1 : n1 + 2 < t.length := findProcAux_lt t id1 lf f 36 n1 h1
  have ha1lt : a1 < t.length := package_id_lt t flag level n1 a1 (by omega) ha1
  refine ⟨?_, ?_, ?_⟩
  · rintro rfl
    obtain rfl : n1 = a1 := Option.some.inj ha1
    unfold topology_get_acpi_cpu_tag
    simp only [h1, ha1]
    simp only [if_true]
    rw [toInt32_small _ hpid]
  · intro hne
    unfold topology_get_acpi_cpu_tag
    simp only [h1, ha1]
    rw [if_neg hne]
    rw [toInt32_small a1 (by omega)]
  · intro hne heq
    unfold topology_get_acpi_cpu_tag
    simp only [h1, h2, ha1, ha2]
    rw [if_neg hne, if_neg hne]
    rw [heq]

/-- Witness for C4: in `T0` the leaves 56 (id 1) and 84 (id 2) share the
parent at offset 36, and their level-1 tags agree on that offset. -/
theorem topology_tag_values_wit :
    acpi_find_processor_node T0 1 10 10 = some (some 56) ∧
    topology_get_acpi_cpu_tag T0 1 10 10 1 0 = some (Int.ofNat 36) ∧
    topology_get_acpi_cpu_tag T0 1 10 10 1 0 =
      topology_get_acpi_cpu_tag T0 2 10 10 1 0 :=
  ⟨by decide,
    (topology_tag_values T0 1 2 10 10 1 0 56 84 36 36 (by decide) (by decide)
      (by decide) (by decide) (by decide) (by decide)).2.1 (by decide),
    (topology_tag_values T0 1 2 10 10 1 0 56 84 36 36 (by decide) (by decide)
      (by decide) (by decide) (by decide) (by decide)).2.2 (by decide) rfl⟩
